import Mathlib

/-
Verification development for the document-model and indexing core of the
clover embedded document database.

The embedding translates, from the Go sources:
  * `internal` package (normalization engine): `Normalize`, `normalizeStruct`,
    `normalizeSlice`, `normalizeMap`, `getElemValueAndType`,
    `processStructTag`, `isEmptyValue`;
  * `document` package: `Document`, `initFields`, `mustInitFields`,
    `lookupField`, `Has`, `Get`, `Set`, `Decode`, `Encode`, `NewDocument`;
  * `index` package: `IndexType`, `IndexInfo`, `indexBase`,
    `badgerRangeIndex`, `CreateBadgerIndex`.

Modelling conventions, chosen to mirror Go reflection semantics:
  * Canonical values (the possible outputs of `Normalize`) are the inductive
    `Value`; Go's generic `interface{}` inputs are the inductive `GoValue`.
  * Machine integers: `v.Int()` results are `Int`, `v.Uint()` results are
    `Nat` (the code performs no arithmetic on them, only widening reads).
  * Floating point: the code only passes floats through and compares them
    with literal zero, so a float is carried as the IEEE-754 bit pattern of
    the widened float64 (`Nat`); `v.Float() == 0` holds exactly for the two
    zero bit patterns.
  * Go maps (`map[string]interface{}`) are association lists with unique
    keys; `mapInsert`/`mapLookup` give Go map assignment/lookup semantics,
    and list order stands in for Go's unordered iteration.
  * A nil interface is `GoValue.nilInterface`; a typed nil pointer is
    `GoValue.ptr none`; a `*time.Time` is `GoValue.timePtr` (the source
    special-cases that exact type before pointer indirection).
  * The `encoding.BinaryMarshaler` arm and the `internal.Value` opaque
    passthrough arm of the type switch concern values outside this embedded
    domain (no claim quantifies over them) and are omitted; the `time.Time`
    arm is kept. Maps with non-string keys and the `uintptr` kind are
    likewise outside the domain.
  * Go panics (nil dereference, `mustInitFields`, `panic("should be a map")`)
    are the distinguished error `NErr.goPanic`; returned Go errors are
    `NErr.goError msg`.
-/

/-- Canonical value taxonomy: the closed set of shapes `internal.Normalize`
can produce. These are exactly the comparable leaves (the opaque
`internal.Value` passthrough, which is not comparable, is outside the
modelled domain). -/
inductive Value where
  | null
  | bool (b : Bool)
  | int (n : Int)
  | uint (n : Nat)
  | float (bits : Nat)
  | str (s : String)
  | bytes (bs : List Nat)
  | time (t : Int)
  | list (vs : List Value)
  | map (entries : List (String × Value))

/-- A Document field map: the model of Go's `map[string]interface{}` holding
canonical values, as an association list with unique keys. -/
abbrev FieldMap := List (String × Value)

mutual

/-- A generic Go value as `internal.Normalize` receives it (an `interface{}`),
classified the way `reflect` sees it. -/
inductive GoValue where
  | nilInterface
  | boolV (b : Bool)
  | intV (n : Int)
  | uintV (n : Nat)
  | floatV (bits : Nat)
  | strV (s : String)
  | timeV (t : Int)
  | timePtr (p : Option Int)
  | ptr (p : Option GoValue)
  | iface (v : GoValue)
  | sliceBytes (bs : List Nat)
  | sliceV (xs : List GoValue)
  | mapV (entries : List (String × GoValue))
  | structV (fields : List GoField)
  | unsupported (typeName : String)

/-- One struct field as `reflect.StructField` presents it: declared name,
package path (empty iff exported), the extracted `clover` struct tag,
the anonymous (embedded) flag, and the field's value. -/
inductive GoField where
  | mk (name pkgPath cloverTag : String) (anonymous : Bool) (value : GoValue)

end

/-- Declared name of a struct field (`fieldType.Name`). -/
def GoField.name : GoField → String
  | .mk n _ _ _ _ => n

/-- Package path of a struct field (`fieldType.PkgPath`, empty iff exported). -/
def GoField.pkgPath : GoField → String
  | .mk _ p _ _ _ => p

/-- The field's `clover` struct tag (`fieldType.Tag.Get("clover")`,
empty when absent). -/
def GoField.cloverTag : GoField → String
  | .mk _ _ t _ _ => t

/-- The field's embedded/anonymous flag (`fieldType.Anonymous`). -/
def GoField.anonymous : GoField → Bool
  | .mk _ _ _ a _ => a

/-- The field's value (`structValue.Field(i)`). -/
def GoField.value : GoField → GoValue
  | .mk _ _ _ _ v => v

/-- Splitting a string at every occurrence of a separator character:
the behavior of Go's `strings.Split(s, sep)` for the one-character
separators the source uses (`.` for paths, `,` for tags). Never returns
the empty list; `Split("", sep) = [""]`. -/
def splitOnCharList (c : Char) : List Char → List (List Char)
  | [] => [[]]
  | d :: rest =>
    let r := splitOnCharList c rest
    if d = c then [] :: r
    else
      match r with
      | h :: t => (d :: h) :: t
      | [] => [[d]]

/-- String-level wrapper of `splitOnCharList`. -/
def splitOnChar (c : Char) (s : String) : List String :=
  (splitOnCharList c s.toList).map List.asString

/-- Path splitting used by `lookupField`: `strings.Split(name, ".")`. -/
def splitDot (s : String) : List String :=
  splitOnChar '.' s

/-- processStructTag from the internal package: `tags[0]` is the override
name (empty when the tag is empty) and omitempty holds when the second
comma-separated part is the literal `omitempty`. -/
def processStructTag (tagStr : String) : String × Bool :=
  let tags := splitOnChar ',' tagStr
  let name := tags.headD ""
  let omitempty := decide (tags.length > 1) && (tags.getD 1 "" == "omitempty")
  (name, omitempty)

/-- isEmptyValue from the internal package: the zero/default test per
reflect kind. Array/Map/Slice/String by length, Bool by falsity, numerics
by zero (a float is zero exactly on the two IEEE-754 zero bit patterns
0 and 2^63), Interface/Ptr by nilness; every other kind (struct, func,
chan, ...) is never empty. -/
def isEmptyValue : GoValue → Bool
  | .sliceBytes bs => bs.isEmpty
  | .sliceV xs => xs.isEmpty
  | .mapV m => m.isEmpty
  | .strV s => s.isEmpty
  | .boolV b => !b
  | .intV n => n == 0
  | .uintV n => n == 0
  | .floatV bits => bits == 0 || bits == 2 ^ 63
  | .nilInterface => true
  | .iface _ => false
  | .ptr p => p.isNone
  | .timePtr p => p.isNone
  | .timeV _ => false
  | .structV _ => false
  | .unsupported _ => false

/-- Go errors as the model sees them: a propagated `error` value, or a
panic (nil dereference, `mustInitFields`, `panic("should be a map")`). -/
inductive NErr where
  | goPanic
  | goError (msg : String)

/-- Result of a fallible operation: Go's `(T, error)` return pair. -/
abbrev NRes (α : Type) := Except NErr α

/-- A struct field's value is structurally smaller than the field record,
used for the termination of the normalization functions. -/
theorem GoField.sizeOf_value_lt (f : GoField) : sizeOf f.value < sizeOf f := by
  cases f with
  | mk n p t a v => simp [GoField.value]

/-- Go map lookup `m[k]` on the association-list model. -/
def mapLookup : FieldMap → String → Option Value
  | [], _ => none
  | (k', v') :: rest, k => if k' = k then some v' else mapLookup rest k

/-- Go map assignment `m[k] = v` on the association-list model: replaces
the first binding of `k`, or appends a new one. -/
def mapInsert : FieldMap → String → Value → FieldMap
  | [], k, v => [(k, v)]
  | (k', v') :: rest, k, v =>
    if k' = k then (k, v) :: rest else (k', v') :: mapInsert rest k v

/-- The merge loop of normalizeStruct for an embedded field whose
normalized form is a map: `for k, v := range normalizedMap { m[k] = v }`. -/
def mergeEntries (acc : FieldMap) : FieldMap → FieldMap
  | [] => acc
  | (k, v) :: rest => mergeEntries (mapInsert acc k v) rest

mutual

/-- Normalize from the internal package. Dispatch mirrors the source:
the `value == nil` check, the type switch (`time.Time`, `*time.Time` -
whose arm dereferences the pointer unconditionally, so a typed nil
`*time.Time` panics), then `getElemValueAndType` indirection and the
reflect kind switch, both folded into `normalizeElem`. An `iface`
wrapper disappears when the value is passed as `interface{}`. -/
def Normalize : GoValue → NRes Value
  | .iface v => Normalize v
  | .nilInterface => .ok .null
  | .timeV t => .ok (.time t)
  | .timePtr (some t) => .ok (.time t)
  | .timePtr none => .error .goPanic
  | .ptr none => .ok .null
  | .ptr (some v) => normalizeElem v
  | .uintV n => .ok (.uint n)
  | .intV n => .ok (.int n)
  | .floatV bits => .ok (.float bits)
  | .strV s => .ok (.str s)
  | .boolV b => .ok (.bool b)
  | .sliceBytes bs => .ok (.bytes bs)
  | .sliceV xs =>
    match normalizeSliceElems xs with
    | .error e => .error e
    | .ok vs => .ok (.list vs)
  | .mapV entries =>
    match normalizeMapEntries entries with
    | .error e => .error e
    | .ok m => .ok (.map m)
  | .structV fs =>
    match normalizeStructAccum [] fs with
    | .error e => .error e
    | .ok m => .ok (.map m)
  | .unsupported typeName => .error (.goError ("invalid dtype " ++ typeName))
termination_by v => sizeOf v
decreasing_by all_goals (simp_wf <;> omega)

/-- The `getElemValueAndType` dereference loop continued past the first
pointer, followed by the reflect kind switch of Normalize. A nil pointer
reached here gives `Null` (the `rType.Kind() == reflect.Ptr` check); a
dereferenced `time.Time` is a struct whose fields are all unexported, so
`normalizeStruct` yields the empty map; an interface kind falls to the
default `invalid dtype` arm. -/
def normalizeElem : GoValue → NRes Value
  | .ptr none => .ok .null
  | .ptr (some v) => normalizeElem v
  | .timePtr none => .ok .null
  | .timePtr (some _) => .ok (.map [])
  | .timeV _ => .ok (.map [])
  | .nilInterface => .error (.goError "invalid dtype")
  | .iface _ => .error (.goError "invalid dtype")
  | .uintV n => .ok (.uint n)
  | .intV n => .ok (.int n)
  | .floatV bits => .ok (.float bits)
  | .strV s => .ok (.str s)
  | .boolV b => .ok (.bool b)
  | .sliceBytes bs => .ok (.bytes bs)
  | .sliceV xs =>
    match normalizeSliceElems xs with
    | .error e => .error e
    | .ok vs => .ok (.list vs)
  | .mapV entries =>
    match normalizeMapEntries entries with
    | .error e => .error e
    | .ok m => .ok (.map m)
  | .structV fs =>
    match normalizeStructAccum [] fs with
    | .error e => .error e
    | .ok m => .ok (.map m)
  | .unsupported typeName => .error (.goError ("invalid dtype " ++ typeName))
termination_by v => sizeOf v
decreasing_by all_goals (simp_wf <;> omega)

/-- The element loop of normalizeSlice for a non-byte element kind:
each element normalized in order, first error aborting. -/
def normalizeSliceElems : List GoValue → NRes (List Value)
  | [] => .ok []
  | x :: rest =>
    match Normalize x with
    | .error e => .error e
    | .ok v =>
      match normalizeSliceElems rest with
      | .error e => .error e
      | .ok vs => .ok (v :: vs)
termination_by xs => sizeOf xs
decreasing_by all_goals (simp_wf <;> omega)

/-- The entry loop of normalizeMap (the map key type is string throughout
the modelled domain, so the non-string-key error arm is not reachable):
each value normalized under its key, first error aborting. The source
builds a Go map keyed uniquely; the list order is the iteration
representative. -/
def normalizeMapEntries : List (String × GoValue) → NRes FieldMap
  | [] => .ok []
  | (k, v) :: rest =>
    match Normalize v with
    | .error e => .error e
    | .ok nv =>
      match normalizeMapEntries rest with
      | .error e => .error e
      | .ok m => .ok ((k, nv) :: m)
termination_by es => sizeOf es
decreasing_by all_goals (simp_wf <;> omega)

/-- The field loop of normalizeStruct, with the map built so far as the
accumulator: unexported fields are skipped; the tag gives the override
name and the omitempty flag; an omitempty field holding its zero value is
skipped; otherwise the field's value is normalized and inserted, and an
embedded field whose normalized form is a map is flattened entry by
entry. -/
def normalizeStructAccum (acc : FieldMap) : List GoField → NRes FieldMap
  | [] => .ok acc
  | f :: rest =>
    if f.pkgPath = "" then
      let p := processStructTag f.cloverTag
      let fieldName := if p.1 ≠ "" then p.1 else f.name
      if !p.2 || !isEmptyValue f.value then
        match Normalize f.value with
        | .error e => .error e
        | .ok normalized =>
          if !f.anonymous then
            normalizeStructAccum (mapInsert acc fieldName normalized) rest
          else
            match normalized with
            | .map entries => normalizeStructAccum (mergeEntries acc entries) rest
            | _ => normalizeStructAccum (mapInsert acc fieldName normalized) rest
      else
        normalizeStructAccum acc rest
    else
      normalizeStructAccum acc rest
termination_by fs => sizeOf fs
decreasing_by
  all_goals simp_wf
  all_goals have h := GoField.sizeOf_value_lt f
  all_goals omega

end

/-- normalizeStruct from the internal package: the field loop started on
the empty map. -/
def normalizeStruct (fs : List GoField) : NRes FieldMap :=
  normalizeStructAccum [] fs

/-- The resolved map key of a struct field: the tag override name when
present, the declared field name otherwise. -/
def resolvedName (f : GoField) : String :=
  let p := processStructTag f.cloverTag
  if p.1 ≠ "" then p.1 else f.name

/-- The omitempty flag of a struct field's tag. -/
def omitEmptyFlag (f : GoField) : Bool :=
  (processStructTag f.cloverTag).2

/-- Whether a reflect kind is one of the supported scalar kinds
(unsigned/signed integer, float, string, bool). -/
def scalarKind : GoValue → Bool
  | .uintV _ => true
  | .intV _ => true
  | .floatV _ => true
  | .strV _ => true
  | .boolV _ => true
  | _ => false

mutual

/-- How a canonical value looks when fed back to `Normalize` as a generic
`interface{}`: the reverse injection of normalization's output types
(uint64, int64, float64, string, bool, nil, []byte, time.Time,
[]interface{}, map[string]interface{}). -/
def Value.toGo : Value → GoValue
  | .null => .nilInterface
  | .bool b => .boolV b
  | .int n => .intV n
  | .uint n => .uintV n
  | .float bits => .floatV bits
  | .str s => .strV s
  | .bytes bs => .sliceBytes bs
  | .time t => .timeV t
  | .list vs => .sliceV (toGoList vs)
  | .map m => .mapV (toGoMap m)

/-- Elementwise `Value.toGo` on a list. -/
def toGoList : List Value → List GoValue
  | [] => []
  | v :: rest => v.toGo :: toGoList rest

/-- Entrywise `Value.toGo` on a field map. -/
def toGoMap : List (String × Value) → List (String × GoValue)
  | [] => []
  | (k, v) :: rest => (k, v.toGo) :: toGoMap rest

end

/-- Modelled from the spec: the external codec collaborator (spec section 6,
the msgpack-backed `marshal`/`unmarshal` wrappers call into it). The spec
specifies a self-describing binary object encoding whose bit-exact wire
format is owned by the collaborator and treated as opaque by Document, so
the encoded byte string is modelled as an opaque token carrying the encoded
field map. -/
inductive EncodedBytes where
  | enc (fields : FieldMap)

/-- marshal from the document package, applied (as `Set` and `initFields`
apply it) to a canonical field map; the modelled codec is total. -/
def marshal (m : FieldMap) : EncodedBytes :=
  .enc m

/-- Modelled from the spec: unmarshal into a `map[string]interface{}`
target, the self-describing decode of the codec collaborator. The decoded
structure is generic (the Go shapes the canonical values take on the
wire), which is why `initFields` re-normalizes it. -/
def unmarshalMap : EncodedBytes → NRes (List (String × GoValue))
  | .enc m => .ok (toGoMap m)

/-- Document from the document package: the cached encoded bytes (`msg`,
nil-able) and the lazily materialized field map (`fields`, nil until
first access). -/
structure Document where
  msg : Option EncodedBytes
  fields : Option FieldMap

/-- NewDocument: a new empty document (both members nil). -/
def NewDocument : Document :=
  ⟨none, none⟩

/-- initFields from the document package: no-op when the field map is
already materialized; an empty map when there are no encoded bytes;
otherwise unmarshal the bytes and normalize the decoded generic map,
insisting (on pain of `panic("should be a map")`) that the result is a
map. -/
def Document.initFields (doc : Document) : NRes Document :=
  match doc.fields with
  | some _ => .ok doc
  | none =>
    match doc.msg with
    | none => .ok ⟨doc.msg, some []⟩
    | some b =>
      match unmarshalMap b with
      | .error e => .error e
      | .ok decoded =>
        match Normalize (.mapV decoded) with
        | .error e => .error e
        | .ok (.map m) => .ok ⟨doc.msg, some m⟩
        | .ok _ => .error .goPanic

/-- mustInitFields: initFields with any failure escalated to a panic. -/
def Document.mustInitFields (doc : Document) : NRes Document :=
  match doc.initFields with
  | .ok d => .ok d
  | .error _ => .error .goPanic

/-- lookupField with `force = false`, as `Get` reads its second return
value: walk the field map segment by segment; a missing segment, or a
non-map intermediate (descending into a nil Go map), yields nothing. -/
def lookupPath : FieldMap → List String → Option Value
  | _, [] => none
  | m, [k] => mapLookup m k
  | m, k :: ks =>
    match mapLookup m k with
    | some (.map sub) => lookupPath sub ks
    | _ => none

/-- lookupField with `force = false`, as `Has` reads its first return
value: whether the walk reaches the last segment with an entry present
(whatever the entry's value, a Go nil included). -/
def hasPath : FieldMap → List String → Bool
  | _, [] => false
  | m, [k] => (mapLookup m k).isSome
  | m, k :: ks =>
    match mapLookup m k with
    | some (.map sub) => hasPath sub ks
    | _ => false

/-- lookupField with `force = true` followed by the leaf assignment of
`Set`: an intermediate segment that is missing or not a map is replaced
by a fresh empty map, and the leaf segment is assigned in the innermost
map. -/
def setPath (m : FieldMap) : List String → Value → FieldMap
  | [], _ => m
  | [k], v => mapInsert m k v
  | k :: ks, v =>
    let sub :=
      match mapLookup m k with
      | some (.map sm) => sm
      | _ => []
    mapInsert m k (.map (setPath sub ks v))

/-- Whether an optional map entry holds a nested map (the `f.(map[string]interface{})`
type assertion of lookupField on a looked-up entry). -/
def isMapEntry : Option Value → Bool
  | some (.map _) => true
  | _ => false

/-- Has from the document package: materialize, then test that the
non-force lookup's returned map is non-nil. -/
def Document.Has (doc : Document) (name : String) : NRes Bool :=
  match doc.mustInitFields with
  | .error e => .error e
  | .ok d => .ok (hasPath (d.fields.getD []) (splitDot name))

/-- Get from the document package: materialize, then the non-force
lookup's value; an absent path gives the Go nil interface, i.e. `Null`
(so `Get` collapses a present null entry and an absent path). -/
def Document.Get (doc : Document) (name : String) : NRes Value :=
  match doc.mustInitFields with
  | .error e => .error e
  | .ok d => .ok ((lookupPath (d.fields.getD []) (splitDot name)).getD .null)

/-- Set from the document package: materialize, normalize the value; on a
normalization error the set is silently skipped (the document is returned
as materialized); on success the force-lookup assignment updates the
field map and the whole map is eagerly re-encoded into `msg`. A panic
escaping `Normalize` propagates (the `err == nil` check is never
reached). -/
def Document.Set (doc : Document) (name : String) (value : GoValue) : NRes Document :=
  match doc.mustInitFields with
  | .error e => .error e
  | .ok d =>
    match Normalize value with
    | .ok normalizedValue =>
      let fields := setPath (d.fields.getD []) (splitDot name) normalizedValue
      .ok ⟨some (marshal fields), some fields⟩
    | .error .goPanic => .error .goPanic
    | .error (.goError _) => .ok d

/-- Decode from the document package: pure construction, storing the bytes
with the field map left unmaterialized. -/
def Decode (data : Option EncodedBytes) : NRes Document :=
  .ok ⟨data, none⟩

/-- Encode from the document package: pure extraction of the cached
encoded bytes. -/
def Encode (doc : Document) : NRes (Option EncodedBytes) :=
  .ok doc.msg

/-- IndexType from the index package. -/
inductive IndexType where
  | IndexSingleField
  | IndexGeoSpatial

/-- IndexInfo from the index package: the index descriptor record. Its
fields are the field name and the index kind (`Type` in the source; the
universe keyword forces the prime here). -/
structure IndexInfo where
  Field : String
  Type' : IndexType

/-- Modelled from the spec: an IndexInfo built from the three metadata
pieces the spec's data model names for it (collection name, field name,
index kind). The source record has members only for the latter two, so
the collection argument has nowhere to be stored. -/
def IndexInfo.ofMeta (collection field : String) (t : IndexType) : IndexInfo :=
  { Field := field, Type' := t }

/-- indexBase from the index package: the collection/field binding shared
by index implementations. -/
structure indexBase where
  collection : String
  field : String

/-- badgerRangeIndex from the index package, up to its construction: the
base binding plus the externally supplied transaction handle (the
transaction type is abstract here). -/
structure badgerRangeIndex (Txn : Type) where
  indexBase : indexBase
  txn : Txn

/-- CreateBadgerIndex from the index package: only the single-field kind
constructs an index; every other kind falls out of the switch and returns
the nil interface, modelled as `none`. -/
def CreateBadgerIndex (Txn : Type) (collection field : String)
    (idxType : IndexType) (txn : Txn) : Option (badgerRangeIndex Txn) :=
  match idxType with
  | .IndexSingleField => some ⟨⟨collection, field⟩, txn⟩
  | _ => none

/-- Looking a key up right after assigning it yields the assigned value
(Go map semantics of the association-list model). -/
theorem mapLookup_mapInsert_self : (m : FieldMap) → (k : String) → (v : Value) →
    mapLookup (mapInsert m k v) k = some v
  | [], k, v => by simp [mapInsert, mapLookup]
  | (k', v') :: rest, k, v => by
    by_cases h : k' = k
    · simp [mapInsert, mapLookup, h]
    · simp [mapInsert, mapLookup, h, mapLookup_mapInsert_self rest k v]

/-- Assigning one key leaves every other key's binding unchanged. -/
theorem mapLookup_mapInsert_ne : (m : FieldMap) → (k' : String) → (v : Value) → (k : String) →
    k' ≠ k → mapLookup (mapInsert m k' v) k = mapLookup m k
  | [], k', v, k, hne => by simp [mapInsert, mapLookup, hne]
  | (k0, v0) :: rest, k', v, k, hne => by
    by_cases h : k0 = k'
    · subst h
      simp [mapInsert, mapLookup, hne]
    · by_cases h2 : k0 = k
      · subst h2
        simp [mapInsert, mapLookup, h]
      · simp [mapInsert, mapLookup, h, h2, mapLookup_mapInsert_ne rest k' v k hne]

mutual

/-- Normalize is the identity on canonical values fed back as generic
values: re-normalizing its own output reproduces it. -/
theorem normalize_toGo : (v : Value) → Normalize v.toGo = .ok v
  | .null => by simp [Value.toGo, Normalize]
  | .bool b => by simp [Value.toGo, Normalize]
  | .int n => by simp [Value.toGo, Normalize]
  | .uint n => by simp [Value.toGo, Normalize]
  | .float bits => by simp [Value.toGo, Normalize]
  | .str s => by simp [Value.toGo, Normalize]
  | .bytes bs => by simp [Value.toGo, Normalize]
  | .time t => by simp [Value.toGo, Normalize]
  | .list vs => by simp [Value.toGo, Normalize, normalize_toGoList vs]
  | .map m => by simp [Value.toGo, Normalize, normalize_toGoMap m]

/-- Elementwise restatement of `normalize_toGo` for list payloads. -/
theorem normalize_toGoList : (vs : List Value) → normalizeSliceElems (toGoList vs) = .ok vs
  | [] => by simp [toGoList, normalizeSliceElems]
  | v :: rest => by
    simp [toGoList, normalizeSliceElems, normalize_toGo v, normalize_toGoList rest]

/-- Entrywise restatement of `normalize_toGo` for map payloads. -/
theorem normalize_toGoMap : (m : List (String × Value)) → normalizeMapEntries (toGoMap m) = .ok m
  | [] => by simp [toGoMap, normalizeMapEntries]
  | (k, v) :: rest => by
    simp [toGoMap, normalizeMapEntries, normalize_toGo v, normalize_toGoMap rest]

end

/-- The traversal success `Has` tests is exactly definedness of the value
`Get` reads: an entry present with a null value still counts as present. -/
theorem hasPath_eq_isSome : (m : FieldMap) → (segs : List String) →
    hasPath m segs = (lookupPath m segs).isSome
  | _, [] => by simp [hasPath, lookupPath]
  | m, [k] => by simp [hasPath, lookupPath]
  | m, k :: k2 :: ks => by
    simp only [hasPath, lookupPath]
    cases h : mapLookup m k with
    | none => simp
    | some v => cases v <;> simp [hasPath_eq_isSome _ (k2 :: ks)]

/-- Reading back the path just assigned by the force-mode walk yields the
assigned value. -/
theorem lookupPath_setPath (v : Value) : (segs : List String) → (m : FieldMap) →
    segs ≠ [] → lookupPath (setPath m segs v) segs = some v
  | [], _, h => absurd rfl h
  | [k], m, _ => by simp [setPath, lookupPath, mapLookup_mapInsert_self]
  | k :: k2 :: ks, m, _ => by
    simp only [setPath, lookupPath, mapLookup_mapInsert_self]
    exact lookupPath_setPath v (k2 :: ks) _ (by simp)

/-- Materialization never changes the cached encoded bytes and never
changes an already materialized field map. -/
theorem mustInitFields_frame (d d2 : Document) (h : d.mustInitFields = .ok d2) :
    d2.msg = d.msg ∧ ∀ m, d.fields = some m → d2.fields = some m := by
  cases d with
  | mk msg fields =>
    cases fields with
    | some m =>
      simp [Document.mustInitFields, Document.initFields] at h
      subst h
      simp
    | none =>
      cases msg with
      | none =>
        simp [Document.mustInitFields, Document.initFields] at h
        subst h
        simp
      | some b =>
        cases b with
        | enc fm =>
          have hnorm : Normalize (GoValue.mapV (toGoMap fm)) = .ok (.map fm) := by
            simp [Normalize, normalize_toGoMap fm]
          simp only [Document.mustInitFields, Document.initFields, unmarshalMap, hnorm] at h
          simp only [Except.ok.injEq] at h
          subst h
          simp

/-- Frame property of the normalizeStruct field loop: a run over exported,
non-embedded fields none of which resolves to the key `k` leaves the
accumulated binding of `k` untouched (unexported fields are skipped and
contribute nothing regardless). -/
theorem structAccum_frame (k : String) :
    (fs : List GoField) → (acc m : FieldMap) →
    (∀ g ∈ fs, g.pkgPath = "" → g.anonymous = false ∧ resolvedName g ≠ k) →
    normalizeStructAccum acc fs = .ok m → mapLookup m k = mapLookup acc k
  | [], acc, m, _, h => by
    simp only [normalizeStructAccum, Except.ok.injEq] at h
    subst h
    rfl
  | f :: rest, acc, m, hall, h => by
    have hrest : ∀ g ∈ rest, g.pkgPath = "" → g.anonymous = false ∧ resolvedName g ≠ k :=
      fun g hg => hall g (List.mem_cons_of_mem f hg)
    simp only [normalizeStructAccum] at h
    by_cases hpkg : f.pkgPath = ""
    · obtain ⟨hanon, hname⟩ := hall f (List.mem_cons_self f rest) hpkg
      rw [if_pos hpkg] at h
      by_cases hskip : (!(processStructTag f.cloverTag).2 || !isEmptyValue f.value) = true
      · rw [if_pos hskip] at h
        cases hn : Normalize f.value with
        | error e => rw [hn] at h; cases h
        | ok nv =>
          rw [hn, hanon] at h
          simp only [Bool.not_false, if_true] at h
          have hkey : (if (processStructTag f.cloverTag).1 ≠ "" then
              (processStructTag f.cloverTag).1 else f.name) = resolvedName f := rfl
          rw [hkey] at h
          rw [structAccum_frame k rest _ m hrest h]
          exact mapLookup_mapInsert_ne acc (resolvedName f) nv k hname
      · rw [if_neg hskip] at h
        exact structAccum_frame k rest acc m hrest h
    · rw [if_neg hpkg] at h
      exact structAccum_frame k rest acc m hrest h

/-- Main lemma for the omitempty property: running the normalizeStruct
field loop over a record containing the omitempty-tagged exported,
non-embedded field `F` resolving to key `k`, surrounded by fields that do
not contribute `k`, binds `k` in the result exactly when `F` is
non-empty. -/
theorem structAccum_target (k : String) (F : GoField)
    (hexp : F.pkgPath = "") (hanon : F.anonymous = false)
    (hname : resolvedName F = k) (homit : omitEmptyFlag F = true) :
    (pre : List GoField) → (post : List GoField) → (acc m : FieldMap) →
    mapLookup acc k = none →
    (∀ g ∈ pre ++ post, g.pkgPath = "" → g.anonymous = false ∧ resolvedName g ≠ k) →
    normalizeStructAccum acc (pre ++ F :: post) = .ok m →
    ((isEmptyValue F.value = true → mapLookup m k = none) ∧
     (isEmptyValue F.value = false → (mapLookup m k).isSome = true))
  | [], post, acc, m, hacc, hall, h => by
    simp only [List.nil_append] at h
    simp only [normalizeStructAccum] at h
    rw [if_pos hexp] at h
    have homit2 : (processStructTag F.cloverTag).2 = true := homit
    have hkey : (if (processStructTag F.cloverTag).1 ≠ "" then
        (processStructTag F.cloverTag).1 else F.name) = resolvedName F := rfl
    constructor
    · intro hemp
      rw [homit2, hemp] at h
      simp only [Bool.not_true, Bool.or_self, Bool.false_eq_true, if_false] at h
      rw [structAccum_frame k post acc m hall h]
      exact hacc
    · intro hemp
      rw [homit2, hemp] at h
      simp only [Bool.not_true, Bool.not_false, Bool.or_true, if_true] at h
      cases hn : Normalize F.value with
      | error e => rw [hn] at h; cases h
      | ok nv =>
        rw [hn, hanon] at h
        simp only [Bool.not_false, if_true] at h
        rw [hkey, hname] at h
        rw [structAccum_frame k post _ m hall h]
        rw [mapLookup_mapInsert_self]
        rfl
  | g :: pre, post, acc, m, hacc, hall, h => by
    have hrest : ∀ g2 ∈ pre ++ post, g2.pkgPath = "" → g2.anonymous = false ∧ resolvedName g2 ≠ k :=
      fun g2 hg => hall g2 (List.mem_cons_of_mem g hg)
    simp only [List.cons_append] at h
    simp only [normalizeStructAccum] at h
    by_cases hpkg : g.pkgPath = ""
    · obtain ⟨hganon, hgname⟩ := hall g (List.mem_cons_self g _) hpkg
      rw [if_pos hpkg] at h
      by_cases hskip : (!(processStructTag g.cloverTag).2 || !isEmptyValue g.value) = true
      · rw [if_pos hskip] at h
        cases hn : Normalize g.value with
        | error e => rw [hn] at h; cases h
        | ok nv =>
          rw [hn, hganon] at h
          simp only [Bool.not_false, if_true] at h
          have hkeyg : (if (processStructTag g.cloverTag).1 ≠ "" then
              (processStructTag g.cloverTag).1 else g.name) = resolvedName g := rfl
          rw [hkeyg] at h
          have hacc2 : mapLookup (mapInsert acc (resolvedName g) nv) k = none := by
            rw [mapLookup_mapInsert_ne acc (resolvedName g) nv k hgname]
            exact hacc
          exact structAccum_target k F hexp hanon hname homit pre post _ m hacc2 hrest h
      · rw [if_neg hskip] at h
        exact structAccum_target k F hexp hanon hname homit pre post acc m hacc hrest h
    · rw [if_neg hpkg] at h
      exact structAccum_target k F hexp hanon hname homit pre post acc m hacc hrest h

/-- C1: for a Document whose materialized field map is `m` (with the
encoded bytes cached consistently), `Encode` returns exactly the cached
encoded bytes, `Decode` is pure construction storing the bytes with the
field map unmaterialized (no re-encoding, no re-validation), and
materializing `Decode (Encode d)` reproduces exactly the field map `m` —
the round-trip preserves the materialized field map for every field map
built from the canonical taxonomy (whose leaves are all comparable; the
non-comparable opaque passthrough is outside the `Value` type). -/
theorem c1_encode_decode_roundtrip (d : Document) (m : FieldMap)
    (hf : d.fields = some m) (hmsg : d.msg = some (marshal m)) :
    Encode d = .ok d.msg ∧
    Decode d.msg = .ok ⟨d.msg, none⟩ ∧
    Document.initFields ⟨d.msg, none⟩ = .ok ⟨d.msg, some m⟩ := by
  refine ⟨rfl, rfl, ?_⟩
  rw [hmsg]
  have hnorm : Normalize (GoValue.mapV (toGoMap m)) = .ok (.map m) := by
    simp [Normalize, normalize_toGoMap m]
  simp only [Document.initFields, marshal, unmarshalMap, hnorm]

/-- Witness for C1 at a concrete one-field document. -/
theorem c1_witness :
    Encode (⟨some (marshal [("a", Value.int 1)]), some [("a", Value.int 1)]⟩ : Document) =
      .ok (⟨some (marshal [("a", Value.int 1)]), some [("a", Value.int 1)]⟩ : Document).msg ∧
    Decode (⟨some (marshal [("a", Value.int 1)]), some [("a", Value.int 1)]⟩ : Document).msg =
      .ok ⟨(⟨some (marshal [("a", Value.int 1)]), some [("a", Value.int 1)]⟩ : Document).msg, none⟩ ∧
    Document.initFields ⟨(⟨some (marshal [("a", Value.int 1)]), some [("a", Value.int 1)]⟩ : Document).msg, none⟩ =
      .ok ⟨(⟨some (marshal [("a", Value.int 1)]), some [("a", Value.int 1)]⟩ : Document).msg, some [("a", Value.int 1)]⟩ :=
  c1_encode_decode_roundtrip
    ⟨some (marshal [("a", Value.int 1)]), some [("a", Value.int 1)]⟩
    [("a", Value.int 1)] rfl rfl

/-- C2: evaluation of Normalize at the null reference inputs. A typed nil
`*time.Time` is caught by the `case *time.Time` arm, whose unconditional
dereference panics — it does not normalize to Null; plain nil pointers,
including chains of pointers ending in nil, do normalize to Null without
error, and a present `*time.Time` unwraps to its instant. -/
theorem c2_nil_time_panics :
    Normalize (.timePtr none) = .error .goPanic ∧
    Normalize (.ptr none) = .ok .null ∧
    Normalize (.ptr (some (.ptr (some (.ptr none))))) = .ok .null ∧
    Normalize (.timePtr (some 7)) = .ok (.time 7) := by
  refine ⟨?_, ?_, ?_, ?_⟩ <;> simp [Normalize, normalizeElem]

/-- C3: when normalization of the raw value fails with an error, `Set`
returns normally, doing nothing beyond the unconditional materialization
step — and materialization itself never changes the cached encoded bytes
nor an already materialized field map, so the document is left unchanged
(same `msg`, same field map). -/
theorem c3_set_swallows_normalize_error (d : Document) (name : String) (raw : GoValue)
    (e : String) (hnorm : Normalize raw = .error (.goError e)) :
    d.Set name raw = d.mustInitFields ∧
    ∀ d2, d.mustInitFields = .ok d2 →
      d2.msg = d.msg ∧ ∀ m, d.fields = some m → d2.fields = some m := by
  constructor
  · cases h : d.mustInitFields with
    | error e2 => simp [Document.Set, h]
    | ok dd => simp [Document.Set, h, hnorm]
  · intro d2 h
    exact mustInitFields_frame d d2 h

/-- Witness for C3: a channel-kind value fails normalization and the set
on a materialized document returns it untouched. -/
theorem c3_witness :
    (Document.Set ⟨none, some [("a", Value.int 1)]⟩ "k" (.unsupported "chan") =
      Document.mustInitFields ⟨none, some [("a", Value.int 1)]⟩) ∧
    ∀ d2, Document.mustInitFields ⟨none, some [("a", Value.int 1)]⟩ = .ok d2 →
      d2.msg = (⟨none, some [("a", Value.int 1)]⟩ : Document).msg ∧
      ∀ m, (⟨none, some [("a", Value.int 1)]⟩ : Document).fields = some m → d2.fields = some m :=
  c3_set_swallows_normalize_error ⟨none, some [("a", Value.int 1)]⟩ "k"
    (.unsupported "chan") "invalid dtype chan" (by simp [Normalize])

/-- C4: `set("a.b.c", 5)` on the empty Document creates the intermediate
maps and produces the field map `{"a": {"b": {"c": 5}}}` (re-encoded into
`msg`); `get("a.b.c")` on that document returns 5 and `get("a.b.x")`
returns absent (the Go nil, i.e. Null) without error. In general, reading
back a just-assigned path yields the assigned value, an intermediate
segment that is missing or not a map is created as a fresh empty map, and
`Set` on a successfully normalized value updates a materialized document
exactly by the force-mode walk plus eager re-encoding. -/
theorem c4_set_creates_path :
    (NewDocument.Set "a.b.c" (.intV 5) =
      .ok ⟨some (marshal [("a", .map [("b", .map [("c", .int 5)])])]),
        some [("a", .map [("b", .map [("c", .int 5)])])]⟩) ∧
    (Document.Get ⟨some (marshal [("a", .map [("b", .map [("c", .int 5)])])]),
        some [("a", .map [("b", .map [("c", .int 5)])])]⟩ "a.b.c" = .ok (.int 5)) ∧
    (Document.Get ⟨some (marshal [("a", .map [("b", .map [("c", .int 5)])])]),
        some [("a", .map [("b", .map [("c", .int 5)])])]⟩ "a.b.x" = .ok .null) ∧
    (∀ (m : FieldMap) (segs : List String) (v : Value), segs ≠ [] →
      lookupPath (setPath m segs v) segs = some v) ∧
    (∀ (m : FieldMap) (k k2 : String) (ks : List String) (v : Value),
      isMapEntry (mapLookup m k) = false →
      setPath m (k :: k2 :: ks) v = mapInsert m k (.map (setPath [] (k2 :: ks) v))) ∧
    (∀ (d : Document) (m : FieldMap) (name : String) (raw : GoValue) (nv : Value),
      d.fields = some m → Normalize raw = .ok nv →
      d.Set name raw = .ok ⟨some (marshal (setPath m (splitDot name) nv)),
        some (setPath m (splitDot name) nv)⟩) := by
  refine ⟨?_, ?_, ?_, ?_, ?_, ?_⟩
  · simp only [NewDocument, Document.Set, Document.mustInitFields, Document.initFields, Normalize]
    rfl
  · rfl
  · rfl
  · exact fun m segs v h => lookupPath_setPath v segs m h
  · intro m k k2 ks v hmap
    cases hl : mapLookup m k with
    | none => simp [setPath, hl]
    | some v2 => cases v2 <;> simp_all [setPath, isMapEntry]
  · intro d m name raw nv hf hnorm
    cases d with
    | mk msg fields =>
      simp only at hf
      subst hf
      simp [Document.Set, Document.mustInitFields, Document.initFields, hnorm]

/-- C5 counterexample: the claim "the field's name never appears as a key
when the omitempty field holds its zero value" fails as stated: in the
record `{A int "x,omitempty"; B int "x"}` with `A = 0`, `B = 1`, the
omitempty field A is zero and skipped, yet its resolved name `x` appears
as a key of the normalized map, contributed by B. -/
theorem c5_counterexample :
    normalizeStruct
      [.mk "A" "" "x,omitempty" false (.intV 0), .mk "B" "" "x" false (.intV 1)] =
      .ok [("x", Value.int 1)] ∧
    omitEmptyFlag (.mk "A" "" "x,omitempty" false (.intV 0)) = true ∧
    isEmptyValue (GoField.value (.mk "A" "" "x,omitempty" false (.intV 0))) = true ∧
    resolvedName (.mk "A" "" "x,omitempty" false (.intV 0)) = "x" ∧
    (mapLookup [("x", Value.int 1)] "x").isSome = true := by
  refine ⟨?_, rfl, rfl, rfl, rfl⟩
  simp [normalizeStruct, normalizeStructAccum, Normalize, processStructTag, isEmptyValue,
    mapInsert, GoField.pkgPath, GoField.cloverTag, GoField.name, GoField.anonymous,
    GoField.value, splitOnChar, splitOnCharList]
  rfl

/-- C5 (amended): for a structured record whose exported fields are
non-embedded, containing an exported omitempty-tagged field `F` that
resolves to key `k` while no other exported field resolves to `k`: when
`F` holds its zero/default value, `k` never appears as a key of the
normalized map, and when `F` holds a non-zero value and normalization of
the record succeeds, `k` always appears. -/
theorem c5_omitempty (pre post : List GoField) (F : GoField) (k : String)
    (hexp : F.pkgPath = "") (hanon : F.anonymous = false)
    (hname : resolvedName F = k) (homit : omitEmptyFlag F = true)
    (hothers : ∀ g ∈ pre ++ post, g.pkgPath = "" → g.anonymous = false ∧ resolvedName g ≠ k) :
    (isEmptyValue F.value = true →
      ∀ m, normalizeStruct (pre ++ F :: post) = .ok m → mapLookup m k = none) ∧
    (isEmptyValue F.value = false →
      ∀ m, normalizeStruct (pre ++ F :: post) = .ok m → (mapLookup m k).isSome = true) := by
  constructor
  · intro hemp m h
    exact (structAccum_target k F hexp hanon hname homit pre post [] m rfl hothers h).1 hemp
  · intro hemp m h
    exact (structAccum_target k F hexp hanon hname homit pre post [] m rfl hothers h).2 hemp

/-- Witness for C5 at the one-field records `{A int "x,omitempty"}` with
`A = 0` (key absent) and `A = 7` (key present). -/
theorem c5_witness :
    mapLookup [] "x" = none ∧ (mapLookup [("x", Value.int 7)] "x").isSome = true := by
  constructor
  · refine (c5_omitempty [] [] (.mk "A" "" "x,omitempty" false (.intV 0)) "x"
      rfl rfl rfl rfl (by simp)).1 rfl [] ?_
    simp [normalizeStruct, normalizeStructAccum, Normalize, processStructTag, isEmptyValue,
      mapInsert, GoField.pkgPath, GoField.cloverTag, GoField.name, GoField.anonymous,
      GoField.value, splitOnChar, splitOnCharList]
    rfl
  · refine (c5_omitempty [] [] (.mk "A" "" "x,omitempty" false (.intV 7)) "x"
      rfl rfl rfl rfl (by simp)).2 rfl [("x", Value.int 7)] ?_
    simp [normalizeStruct, normalizeStructAccum, Normalize, processStructTag, isEmptyValue,
      mapInsert, GoField.pkgPath, GoField.cloverTag, GoField.name, GoField.anonymous,
      GoField.value, splitOnChar, splitOnCharList]
    rfl

/-- C6: a sequence whose element kind is the 8-bit unsigned byte always
normalizes to a single binary blob equal to the byte sequence — by the
`Bytes` constructor it is never a per-element numeric list — and in
particular `[]byte{1,2,3}` normalizes to the blob `{1,2,3}`. -/
theorem c6_byte_sequences_blob :
    (∀ bs : List Nat, Normalize (.sliceBytes bs) = .ok (.bytes bs)) ∧
    Normalize (.sliceBytes [1, 2, 3]) = .ok (.bytes [1, 2, 3]) := by
  constructor
  · intro bs
    simp [Normalize]
  · simp [Normalize]

/-- C7: on every supported scalar kind (unsigned/signed integer, float,
string, bool), `Normalize` is idempotent on its own output: normalizing
the result again, re-injected as a generic value, reproduces it. -/
theorem c7_scalar_idempotent (x : GoValue) (h : scalarKind x = true) :
    ∃ v, Normalize x = .ok v ∧ Normalize v.toGo = .ok v := by
  cases x with
  | uintV n => exact ⟨.uint n, by simp [Normalize], by simp [Value.toGo, Normalize]⟩
  | intV n => exact ⟨.int n, by simp [Normalize], by simp [Value.toGo, Normalize]⟩
  | floatV bits => exact ⟨.float bits, by simp [Normalize], by simp [Value.toGo, Normalize]⟩
  | strV s => exact ⟨.str s, by simp [Normalize], by simp [Value.toGo, Normalize]⟩
  | boolV b => exact ⟨.bool b, by simp [Normalize], by simp [Value.toGo, Normalize]⟩
  | _ => simp [scalarKind] at h

/-- Witness for C7 at the concrete signed integer 3. -/
theorem c7_witness :
    scalarKind (.intV 3) = true ∧
    ∃ v, Normalize (.intV 3) = .ok v ∧ Normalize v.toGo = .ok v :=
  ⟨rfl, c7_scalar_idempotent (.intV 3) rfl⟩

/-- C8 counterexample: `Has` does not treat "present with null value" and
"absent" identically: on the field map `{"a": nil}` it returns true for
`a`, on the empty field map it returns false for `a`. -/
theorem c8_counterexample :
    Document.Has ⟨none, some [("a", Value.null)]⟩ "a" = .ok true ∧
    Document.Has ⟨none, some []⟩ "a" = .ok false := by
  exact ⟨rfl, rfl⟩

/-- C8 (amended): `has(path)` distinguishes the two cases: presence is
path-traversal success, so a path present with a null value yields true
while an absent path yields false (it is `get` that collapses the two
into the nil interface). -/
theorem c8_has_distinguishes_null (m : FieldMap) (name : String) :
    (lookupPath m (splitDot name) = some Value.null →
      Document.Has ⟨none, some m⟩ name = .ok true) ∧
    ((lookupPath m (splitDot name)).isNone →
      Document.Has ⟨none, some m⟩ name = .ok false) := by
  have hbase : Document.Has ⟨none, some m⟩ name =
      .ok (hasPath m (splitDot name)) := rfl
  constructor
  · intro h
    rw [hbase, hasPath_eq_isSome m (splitDot name), h]
    rfl
  · intro h
    rw [hbase, hasPath_eq_isSome m (splitDot name), Option.isNone_iff_eq_none.mp h]
    rfl

/-- C9 counterexample: IndexInfo does not carry a collection name — two
descriptors built from the three metadata pieces the spec names, differing
only in the collection, are the very same record. -/
theorem c9_counterexample :
    IndexInfo.ofMeta "users" "age" .IndexSingleField =
      IndexInfo.ofMeta "orders" "age" .IndexSingleField ∧
    "users" ≠ "orders" := by
  exact ⟨rfl, by decide⟩

/-- C9 (amended): IndexInfo is an immutable record carrying two pieces of
metadata, the field name and the index kind; these two components
determine an IndexInfo completely (there is no room for a collection
name, which lives on the index runtime object instead). -/
theorem c9_two_fields (a b : IndexInfo)
    (hf : a.Field = b.Field) (ht : a.Type' = b.Type') : a = b := by
  cases a
  cases b
  simp_all

/-- Witness for C9 at a concrete descriptor. -/
theorem c9_witness :
    (⟨"age", .IndexSingleField⟩ : IndexInfo) = ⟨"age", .IndexSingleField⟩ :=
  c9_two_fields ⟨"age", .IndexSingleField⟩ ⟨"age", .IndexSingleField⟩ rfl rfl

/-- C10: constructing an index with the geospatial kind through
CreateBadgerIndex yields the nil interface (no index object); the
single-field kind, and only it, yields an index bound to the given
collection, field and transaction handle. -/
theorem c10_create_badger_index (Txn : Type) (collection field : String) (txn : Txn) :
    CreateBadgerIndex Txn collection field .IndexGeoSpatial txn = none ∧
    CreateBadgerIndex Txn collection field .IndexSingleField txn =
      some ⟨⟨collection, field⟩, txn⟩ ∧
    ∀ t : IndexType, t = .IndexSingleField ∨
      CreateBadgerIndex Txn collection field t txn = none := by
  refine ⟨rfl, rfl, ?_⟩
  intro t
  cases t with
  | IndexSingleField => exact Or.inl rfl
  | IndexGeoSpatial => exact Or.inr rfl
